import Mathlib

/-!
Verification development for the cortina ear-training core.

Shallow embedding of the music-theory model (`src/app/utils/music.ts`,
`src/app/types/intervals.ts`, `src/app/types/chords.ts`), the lesson session
hooks (`useIntervalLesson` / `useChordLesson`), the playback sequencers
(`useIntervalPlayback` / `useChordPlayback`) and the lesson-page input
coordinator (`handleNotePress`).  JavaScript numbers are embedded as `Int`
(or `Nat` where the source value is a MIDI index), strings as `String`,
arrays as `List`.
-/

namespace Cortina

/-! ## utils/music.ts -/

/-- The note-name table used by both `midiToNote` and `noteToMidi`. -/
def noteNames : List String :=
  ["C", "C#", "D", "D#"] ++ ["E", "F", "F#", "G"] ++ ["G#", "A", "A#", "B"]

/-- JavaScript `Array.prototype.indexOf`: the index of the first occurrence,
or `-1` when the element is absent. -/
def jsIndexOf (l : List String) (s : String) : Int :=
  go l 0
where
  go : List String → Int → Int
    | [], _ => -1
    | x :: xs, i => if x == s then i else go xs (i + 1)

/-- `midiToNote` from `src/app/utils/music.ts`:
`noteNames[midi % 12]` concatenated with `Math.floor(midi / 12) - 1`.
The source is only ever applied to MIDI values in `[0,127]`, embedded as
`Nat`. -/
def midiToNote (midiNote : Nat) : String :=
  noteNames.getD (midiNote % 12) "" ++ toString ((midiNote / 12 : Nat) - 1 : Int)

/-- Value of a list of decimal digit characters, as `parseInt` reads them. -/
def digitsVal : List Char → Nat → Nat
  | [], acc => acc
  | c :: cs, acc => digitsVal cs (acc * 10 + (c.toNat - '0'.toNat))

/-- Parse a nonempty all-digit suffix (`\d+` anchored to the end). -/
def parseDigits (cs : List Char) : Option Nat :=
  if cs ≠ [] ∧ cs.all Char.isDigit then some (digitsVal cs 0) else none

/-- Parse `-?\d+` anchored to the end of the string. -/
def parseOctave (cs : List Char) : Option Int :=
  match cs with
  | '-' :: ds => (parseDigits ds).map (fun n => -(n : Int))
  | ds => (parseDigits ds).map (fun n => (n : Int))

/-- The match of `^([A-G]#?)(-?\d+)$`: the note-name capture group and the
octave capture group (as an integer), or `none` when the regex fails. -/
def parseNote (cs : List Char) : Option (String × Int) :=
  match cs with
  | c :: rest =>
      if 'A' ≤ c ∧ c ≤ 'G' then
        match rest with
        | '#' :: rest2 => (parseOctave rest2).map (fun o => (String.mk [c, '#'], o))
        | _ => (parseOctave rest).map (fun o => (String.mk [c], o))
      else none
  | [] => none

/-- `noteToMidi` from `src/app/utils/music.ts`: matches
`^([A-G]#?)(-?\d+)$`; on failure returns 60 (C4); otherwise
`(octave + 1) * 12 + noteNames.indexOf(noteName)`.  Note the source performs
no clamping of the result. -/
def noteToMidi (note : String) : Int :=
  match parseNote note.data with
  | none => 60
  | some (noteName, octave) => (octave + 1) * 12 + jsIndexOf noteNames noteName

/-! ## types/intervals.ts -/

/-- `IntervalDirection` from `src/app/types/intervals.ts`. -/
inductive IntervalDirection where
  | ascending
  | descending
  | none
deriving DecidableEq, Repr

/-- `IntervalInfo` from `src/app/types/intervals.ts`. -/
structure IntervalInfo where
  name : String
  semitones : Int
  shortName : String
deriving DecidableEq, Repr

/-- The `INTERVALS` catalog, in `Object.values` (insertion) order. -/
def INTERVALS : List IntervalInfo :=
  [ ⟨"unison", 0, "P1"⟩,
    ⟨"minor 2nd", 1, "m2"⟩,
    ⟨"major 2nd", 2, "M2"⟩,
    ⟨"minor 3rd", 3, "m3"⟩,
    ⟨"major 3rd", 4, "M3"⟩,
    ⟨"perfect 4th", 5, "P4"⟩,
    ⟨"diminished 5th", 6, "d5"⟩,
    ⟨"perfect 5th", 7, "P5"⟩,
    ⟨"perfect octave", 12, "P8"⟩ ]

/-- `calculateTargetNote`: add/subtract the semitone distance according to
direction, clamp to `[0,127]`, and name the result.  Returns the pair
`(targetNote, targetMidi)`. -/
def calculateTargetNote (rootMidi : Int) (interval : IntervalInfo)
    (direction : IntervalDirection) : String × Int :=
  let raw : Int :=
    match direction with
    | .ascending => rootMidi + interval.semitones
    | .descending => rootMidi - interval.semitones
    | .none => rootMidi
  let targetMidi : Int := max 0 (min 127 raw)
  (midiToNote targetMidi.toNat, targetMidi)

/-- `charAt(0).toUpperCase() + slice(1)`. -/
def capitalize (s : String) : String :=
  match s.data with
  | [] => ""
  | c :: rest => String.mk (c.toUpper :: rest)

/-- String form of a direction, as it appears in display names. -/
def directionString : IntervalDirection → String
  | .ascending => "ascending"
  | .descending => "descending"
  | .none => "none"

/-- `getIntervalDisplayName` from `src/app/types/intervals.ts`. -/
def getIntervalDisplayName (interval : IntervalInfo)
    (direction : IntervalDirection) : String :=
  let capitalizedName := capitalize interval.name
  match direction with
  | .none => capitalizedName
  | d => capitalizedName ++ " (" ++ directionString d ++ ")"

/-- `calculateInterval`: absolute semitone difference, direction from the
sign, catalog lookup by exact semitone match (`find`, `null` when absent). -/
def calculateInterval (firstMidi secondMidi : Int) :
    Option IntervalInfo × IntervalDirection :=
  let semitones : Int := (secondMidi - firstMidi).natAbs
  let direction : IntervalDirection :=
    if secondMidi > firstMidi then .ascending
    else if secondMidi < firstMidi then .descending
    else .none
  (INTERVALS.find? (fun int => int.semitones == semitones), direction)

/-- `IntervalChallenge` from `src/app/types/intervals.ts`. -/
structure IntervalChallenge where
  interval : IntervalInfo
  direction : IntervalDirection
  rootNote : String
  rootMidi : Int
  targetNote : String
  targetMidi : Int
  displayName : String
deriving DecidableEq, Repr

/-- Build the pool entry for one interval and direction. -/
def mkIntervalChallenge (rootMidi : Nat) (rootNote : String)
    (interval : IntervalInfo) (direction : IntervalDirection) :
    IntervalChallenge :=
  let t := calculateTargetNote rootMidi interval direction
  { interval := interval
    direction := direction
    rootNote := rootNote
    rootMidi := rootMidi
    targetNote := t.1
    targetMidi := t.2
    displayName := getIntervalDisplayName interval direction }

/-- `generateIntervalPool`: one `direction = none` entry for unison, an
ascending and a descending entry for every other catalog interval, in
catalog order. -/
def generateIntervalPool (rootMidi : Nat) : List IntervalChallenge :=
  let rootNote := midiToNote rootMidi
  INTERVALS.flatMap fun interval =>
    if interval.name == "unison" then
      [mkIntervalChallenge rootMidi rootNote interval .none]
    else
      [mkIntervalChallenge rootMidi rootNote interval .ascending,
       mkIntervalChallenge rootMidi rootNote interval .descending]

/-- `selectRandomChallenges` (identical in `intervals.ts` and `chords.ts`):
`[...pool].sort(() => Math.random() - 0.5).slice(0, count)`.  The sort with
a random comparator is modelled by an arbitrary `shuffle` function; the only
fact JavaScript guarantees about it — that it permutes the copied array —
is taken as a hypothesis in the theorems. -/
def selectRandomChallenges {α : Type} (shuffle : List α → List α)
    (pool : List α) (count : Nat) : List α :=
  (shuffle pool).take count

/-- The pool array as a mutable reference, for the frame-effect statement:
`selectRandomChallenges` receives the caller's array by reference. -/
structure PoolRef (α : Type) where
  contents : List α
deriving DecidableEq, Repr

/-- `selectRandomChallenges` with the caller's array state threaded through:
`[...pool]` copies the array, `.sort` mutates only that copy, `.slice`
copies again, so the referenced pool is returned unchanged. -/
def selectRandomChallengesRun {α : Type} (shuffle : List α → List α)
    (ref : PoolRef α) (count : Nat) : List α × PoolRef α :=
  let copy := ref.contents
  let shuffled := shuffle copy
  (shuffled.take count, ref)

/-! ## types/chords.ts -/

/-- `ChordInfo` from `src/app/types/chords.ts`. -/
structure ChordInfo where
  name : String
  intervals : List Int
  shortName : String
  displayName : String
deriving DecidableEq, Repr

/-- The `CHORDS` catalog, in `Object.values` (insertion) order. -/
def CHORDS : List ChordInfo :=
  [ ⟨"major", [0, 4, 7], "maj", "Major"⟩,
    ⟨"minor", [0, 3, 7], "min", "Minor"⟩,
    ⟨"diminished", [0, 3, 6], "dim", "Diminished"⟩,
    ⟨"augmented", [0, 4, 8], "aug", "Augmented"⟩ ]

/-- `calculateChordNotes`: each offset added to the root and clamped to
`[0,127]` independently.  Returns `(notes, midiNotes)`. -/
def calculateChordNotes (rootMidi : Int) (chord : ChordInfo) :
    List String × List Int :=
  let midiNotes := chord.intervals.map fun interval =>
    max 0 (min 127 (rootMidi + interval))
  (midiNotes.map (fun m => midiToNote m.toNat), midiNotes)

/-- `rootNote.replace(/\d+$/, '')`: strip the maximal trailing digit run. -/
def stripTrailingDigits (s : String) : String :=
  String.mk ((s.data.reverse.dropWhile Char.isDigit).reverse)

/-- `getChordDisplayName` from `src/app/types/chords.ts`. -/
def getChordDisplayName (rootNote : String) (chord : ChordInfo) : String :=
  stripTrailingDigits rootNote ++ " " ++ chord.displayName

/-- JavaScript sort with comparator `(a, b) => a - b`: ascending numeric
order, embedded as insertion sort (the engine's algorithm differs but the
sorted result is the same list). -/
def sortAsc (l : List Int) : List Int :=
  l.insertionSort (· ≤ ·)

/-- `sortedPlayed.every((note, index) => note === sortedExpected[index])`:
walk the first list, comparing against the second positionally (a missing
right element compares unequal, as `note === undefined` does). -/
def everyEq : List Int → List Int → Bool
  | [], _ => true
  | x :: xs, y :: ys => x == y && everyEq xs ys
  | _ :: _, [] => false

/-- `checkChordMatch` from `src/app/types/chords.ts`: equal length required,
then both sides sorted ascending and compared elementwise. -/
def checkChordMatch (playedMidiNotes expectedMidiNotes : List Int) : Bool :=
  if playedMidiNotes.length ≠ expectedMidiNotes.length then
    false
  else
    everyEq (sortAsc playedMidiNotes) (sortAsc expectedMidiNotes)

/-- `ChordChallenge` from `src/app/types/chords.ts`. -/
structure ChordChallenge where
  chord : ChordInfo
  rootNote : String
  rootMidi : Int
  notes : List String
  midiNotes : List Int
  displayName : String
deriving DecidableEq, Repr

/-- The fixed root notes of `generateChordPool` (white keys C3–E4). -/
def chordPoolRoots : List Nat := [48, 50, 52, 53, 55, 57, 59, 60, 62, 64]

/-- `generateChordPool`: cross product of the ten configured roots with the
four chord definitions, in source order. -/
def generateChordPool : List ChordChallenge :=
  chordPoolRoots.flatMap fun rootMidi =>
    let rootNote := midiToNote rootMidi
    CHORDS.map fun chord =>
      let nm := calculateChordNotes rootMidi chord
      { chord := chord
        rootNote := rootNote
        rootMidi := rootMidi
        notes := nm.1
        midiNotes := nm.2
        displayName := getChordDisplayName rootNote chord }

/-! ## Lesson session state (`useIntervalLesson` / `useChordLesson`)

The React state variables of the hooks are collected into a record; each
hook action becomes a function from the record (plus the event's inputs) to
the updated record.  `Date.now()` is passed in as the `now` argument. -/

/-- `MAX_ATTEMPTS` in both lesson hooks. -/
def MAX_ATTEMPTS : Nat := 7

/-- `CHALLENGES_PER_LESSON` in both lesson hooks. -/
def CHALLENGES_PER_LESSON : Nat := 5

/-- `ChallengeAttempt` from `src/app/types/intervals.ts` (`playedNotes` is
the pair `[firstNote, secondNote]`). -/
structure ChallengeAttempt where
  playedNotes : String × String
  correct : Bool
  timestamp : Nat
deriving DecidableEq, Repr

/-- `ChallengeResult` from `src/app/types/intervals.ts`. -/
structure ChallengeResult where
  challenge : IntervalChallenge
  attempts : List ChallengeAttempt
  succeeded : Bool
  attemptsCount : Nat
deriving DecidableEq, Repr

/-- Sparse-array write `arr[i] = v` on a copy, JavaScript style: positions
beyond the current length are filled with holes (`none`). -/
def setSparse {α : Type} (l : List (Option α)) (i : Nat) (a : α) :
    List (Option α) :=
  if i < l.length then l.set i (some a)
  else l ++ List.replicate (i - l.length) none ++ [some a]

/-- Sparse-array read `arr[i]` (`none` for a hole or out of range). -/
def getSparse {α : Type} (l : List (Option α)) (i : Nat) : Option α :=
  (l.getD i none)

/-- The `useState` variables of `useIntervalLesson`. -/
structure IntervalLessonState where
  challenges : List IntervalChallenge
  challengeIndex : Nat
  attempts : Nat
  results : List (Option ChallengeResult)
  isComplete : Bool
deriving DecidableEq, Repr

/-- `challenges[challengeIndex] || null`. -/
def IntervalLessonState.currentChallenge (s : IntervalLessonState) :
    Option IntervalChallenge :=
  s.challenges.get? s.challengeIndex

/-- `submitAnswer(firstNote, secondNote)` of `useIntervalLesson`: judge the
played interval, bump the attempt counter, and store a finalized
`ChallengeResult` at the current index when the answer is correct or the
attempt limit is reached.  Returns `((correct, isLastAttempt), newState)`. -/
def submitIntervalAnswer (s : IntervalLessonState)
    (firstNote secondNote : String) (now : Nat) :
    (Bool × Bool) × IntervalLessonState :=
  match s.currentChallenge with
  | Option.none => ((false, false), s)
  | some currentChallenge =>
    let firstMidi := noteToMidi firstNote
    let secondMidi := noteToMidi secondNote
    let played := calculateInterval firstMidi secondMidi
    let correct :=
      (match played.1 with
       | some playedInterval => playedInterval.name == currentChallenge.interval.name
       | Option.none => false) &&
      played.2 == currentChallenge.direction
    let newAttempts := s.attempts + 1
    let attempt : ChallengeAttempt :=
      { playedNotes := (firstNote, secondNote), correct := correct, timestamp := now }
    let isLastAttempt := newAttempts ≥ MAX_ATTEMPTS || correct
    let results' :=
      if isLastAttempt then
        let prior := ((getSparse s.results s.challengeIndex).map
          ChallengeResult.attempts).getD []
        setSparse s.results s.challengeIndex
          { challenge := currentChallenge
            attempts := prior ++ [attempt]
            succeeded := correct
            attemptsCount := newAttempts }
      else s.results
    ((correct, isLastAttempt),
     { s with attempts := newAttempts, results := results' })

/-- `moveToNextChallenge` of `useIntervalLesson`. -/
def moveToNextIntervalChallenge (s : IntervalLessonState) :
    IntervalLessonState :=
  let nextIndex := s.challengeIndex + 1
  if nextIndex ≥ s.challenges.length then
    { s with isComplete := true }
  else
    { s with challengeIndex := nextIndex, attempts := 0 }

/-- `resetLesson` of `useIntervalLesson` (also the hook's initial state). -/
def emptyIntervalLesson : IntervalLessonState :=
  { challenges := [], challengeIndex := 0, attempts := 0, results := [],
    isComplete := false }

/-- `ChordAttempt` from `src/app/types/chords.ts`. -/
structure ChordAttempt where
  playedNotes : List String
  correct : Bool
  timestamp : Nat
deriving DecidableEq, Repr

/-- `ChordResult` from `src/app/types/chords.ts`. -/
structure ChordResult where
  challenge : ChordChallenge
  attempts : List ChordAttempt
  succeeded : Bool
  attemptsCount : Nat
deriving DecidableEq, Repr

/-- The `useState` variables of `useChordLesson`. -/
structure ChordLessonState where
  challenges : List ChordChallenge
  challengeIndex : Nat
  attempts : Nat
  results : List (Option ChordResult)
  isComplete : Bool
deriving DecidableEq, Repr

/-- `challenges[challengeIndex] || null`. -/
def ChordLessonState.currentChallenge (s : ChordLessonState) :
    Option ChordChallenge :=
  s.challenges.get? s.challengeIndex

/-- `submitAnswer(playedNotes)` of `useChordLesson`: judge via
`checkChordMatch`, bump the attempt counter, and store a finalized
`ChordResult` at the current index when correct or out of attempts. -/
def submitChordAnswer (s : ChordLessonState) (playedNotes : List String)
    (now : Nat) : (Bool × Bool) × ChordLessonState :=
  match s.currentChallenge with
  | Option.none => ((false, false), s)
  | some currentChallenge =>
    let playedMidiNotes := playedNotes.map noteToMidi
    let correct := checkChordMatch playedMidiNotes currentChallenge.midiNotes
    let newAttempts := s.attempts + 1
    let attempt : ChordAttempt :=
      { playedNotes := playedNotes, correct := correct, timestamp := now }
    let isLastAttempt := newAttempts ≥ MAX_ATTEMPTS || correct
    let results' :=
      if isLastAttempt then
        let prior := ((getSparse s.results s.challengeIndex).map
          ChordResult.attempts).getD []
        setSparse s.results s.challengeIndex
          { challenge := currentChallenge
            attempts := prior ++ [attempt]
            succeeded := correct
            attemptsCount := newAttempts }
      else s.results
    ((correct, isLastAttempt),
     { s with attempts := newAttempts, results := results' })

/-! ## Playback sequencers (`useIntervalPlayback` / `useChordPlayback`)

One `play` invocation is embedded as the trace of `playNote` / `stopNote`
calls it issues.  The abortable `sleep`s of a run are numbered from 0 in
program order; `cancel = some k` means the abort signal fires while the
run is suspended in sleep number `k` (so that sleep rejects and control
jumps to the `catch` block), and `cancel = none` — or an index never
reached — means the run completes. -/

/-- A call to the injected note-output collaborator. -/
inductive Ev where
  | on (note : String)
  | off (note : String)
deriving DecidableEq, Repr

/-- Trace of one `playInterval(challenge)` run (`useIntervalPlayback`).
Sleeps: 0 = root hold, 1 = inter-note gap, 2 = target hold.  The `catch`
block calls `stopNote` on the root and on the target unconditionally. -/
def intervalPlaybackTrace (rootNote targetNote : String)
    (cancel : Option Nat) : List Ev :=
  match cancel with
  | some 0 => [.on rootNote, .off rootNote, .off targetNote]
  | some 1 => [.on rootNote, .off rootNote, .off rootNote, .off targetNote]
  | some 2 => [.on rootNote, .off rootNote, .on targetNote,
               .off rootNote, .off targetNote]
  | _ => [.on rootNote, .off rootNote, .on targetNote, .off targetNote]

/-- Loop body of `playChord` over the remaining notes, carrying the index
`k` of the next sleep.  Each iteration holds its note (sleep `k`) and, when
more notes follow, waits the gap (sleep `k + 1`).  The `catch` block calls
`stopNote` on every note of the challenge. -/
def chordPlaybackGo (allNotes : List String) (cancel : Option Nat) :
    List String → Nat → List Ev
  | [], _ => []
  | note :: rest, k =>
      if cancel == some k then
        .on note :: allNotes.map Ev.off
      else
        .on note :: .off note ::
          (match rest with
           | [] => []
           | _ :: _ =>
              if cancel == some (k + 1) then allNotes.map Ev.off
              else chordPlaybackGo allNotes cancel rest (k + 2))

/-- Trace of one `playChord(challenge)` run (`useChordPlayback`). -/
def chordPlaybackTrace (notes : List String) (cancel : Option Nat) :
    List Ev :=
  chordPlaybackGo notes cancel notes 0

/-- Number of `playNote` calls in a trace. -/
def onCount (tr : List Ev) : Nat :=
  tr.countP fun e => match e with | .on _ => true | .off _ => false

/-- Number of `stopNote` calls in a trace. -/
def offCount (tr : List Ev) : Nat :=
  tr.countP fun e => match e with | .on _ => false | .off _ => true

/-! ## Input/output mode coordinator (`handleNotePress`, lesson page)

The lesson page's `useState` variables are collected into a record and the
`handleNotePress` callback becomes a function from that record plus the
incoming note event to the updated record and the list of synchronous
calls to the audio collaborator.  The feedback timer that
`handleIntervalCompleted` schedules runs in a later event-loop turn and is
outside this synchronous transition. -/

/-- `LessonMode` from the lesson page. -/
inductive LessonMode where
  | input
  | output
deriving DecidableEq, Repr

/-- `FeedbackState` from the lesson page. -/
inductive FeedbackState where
  | idle
  | correct
  | incorrect
  | finalFail
deriving DecidableEq, Repr

/-- A note event payload, `Note | MidiNote` in the source. -/
inductive NoteEvent where
  | name (note : String)
  | midi (note : Nat)
deriving DecidableEq, Repr

/-- The lesson page state touched by `handleNotePress`. -/
structure CoordState where
  lessonMode : LessonMode
  feedbackState : FeedbackState
  pressedNotes : List String
  firstNote : Option String
  session : IntervalLessonState
deriving DecidableEq, Repr

/-- A synchronous call to the audio collaborator made by the handler
(`playNote(note, 0.7)` forwards the raw event payload). -/
inductive AudioCall where
  | playNote (note : NoteEvent) (velocity : Rat)
deriving DecidableEq, Repr

/-- `Set.add`: insert the note into `pressedNotes` if absent. -/
def jsSetAdd (s : List String) (x : String) : List String :=
  if x ∈ s then s else s ++ [x]

/-- `handleIntervalCompleted(first, second)` — synchronous part: judge the
interval, submit the answer, flip to output mode, clear the first note and
set the feedback state.  (The `setTimeout` continuation that later moves on
or replays is a separate event-loop turn.) -/
def handleIntervalCompleted (st : CoordState) (first second : String)
    (now : Nat) : CoordState :=
  match st.session.currentChallenge with
  | Option.none => st
  | some currentChallenge =>
    let firstMidi := noteToMidi first
    let secondMidi := noteToMidi second
    let played := calculateInterval firstMidi secondMidi
    let correct :=
      (match played.1 with
       | some i => i.name == currentChallenge.interval.name
       | Option.none => false) &&
      played.2 == currentChallenge.direction
    let sub := submitIntervalAnswer st.session first second now
    let isLastAttempt := sub.1.2
    { st with
        session := sub.2
        lessonMode := .output
        firstNote := Option.none
        feedbackState :=
          if correct then .correct
          else if isLastAttempt then .finalFail
          else .incorrect }

/-- `handleNotePress` from the intervals lesson page: blocked entirely
unless `lessonMode === 'input'`; otherwise plays the note, marks it
pressed, and either records it as the first note of the interval or
completes the interval. -/
def handleNotePress (st : CoordState) (note : NoteEvent) (now : Nat) :
    CoordState × List AudioCall :=
  if st.lessonMode ≠ .input then
    (st, [])
  else
    let noteStr :=
      match note with
      | .midi n => midiToNote n
      | .name s => s
    let calls := [AudioCall.playNote note (7 / 10 : Rat)]
    let st1 := { st with pressedNotes := jsSetAdd st.pressedNotes noteStr }
    match st.firstNote with
    | Option.none => ({ st1 with firstNote := some noteStr }, calls)
    | some first => (handleIntervalCompleted st1 first noteStr now, calls)

/-- Initial (and reset) state of `useChordLesson`. -/
def emptyChordLesson : ChordLessonState :=
  { challenges := [], challengeIndex := 0, attempts := 0, results := [],
    isComplete := false }

/-! ## Theorems -/

/-- Claim C3 (code bug): `noteToMidi` performs no clamping, so the
well-formed high-octave name `"B9"` is mapped to 131, outside the `[0,127]`
range its own documentation promises. -/
theorem noteToMidi_out_of_range_B9 :
    noteToMidi "B9" = 131 ∧ ¬ noteToMidi "B9" ≤ 127 ∧
      noteToMidi "C-2" = -12 ∧ ¬ 0 ≤ noteToMidi "C-2" := by
  decide

/-- Claim C8: while the lesson mode is `output`, `handleNotePress` is a
complete no-op — no call reaches the audio collaborator or
`submitAnswer`, and every piece of page and session state is returned
unchanged. -/
theorem handleNotePress_output_noop (st : CoordState) (note : NoteEvent)
    (now : Nat) (h : st.lessonMode = .output) :
    handleNotePress st note now = (st, []) := by
  simp [handleNotePress, h]

/-- Witness for `handleNotePress_output_noop` at a concrete state. -/
theorem handleNotePress_output_noop_witness :
    handleNotePress
      ⟨.output, .idle, [], Option.none, emptyIntervalLesson⟩
      (.midi 60) 5 =
      (⟨.output, .idle, [], Option.none, emptyIntervalLesson⟩, []) :=
  handleNotePress_output_noop _ _ _ rfl

/-- Claim C9 (counterexample): submitting an answer with no active
challenge does not raise; both lesson hooks return the normal structured
outcome `{correct: false, isLastAttempt: false}` and leave the state
untouched. -/
theorem submitAnswer_no_challenge_cex :
    submitIntervalAnswer emptyIntervalLesson "C4" "E4" 0 =
      ((false, false), emptyIntervalLesson) ∧
    submitChordAnswer emptyChordLesson ["C4", "E4", "G4"] 0 =
      ((false, false), emptyChordLesson) := by
  constructor <;> rfl

/-- Claim C9 (amended): in an invalid session state (no active challenge),
`submitAnswer` returns `{correct: false, isLastAttempt: false}` as a
normal outcome and leaves the session unchanged, in both lesson hooks. -/
theorem submitAnswer_no_challenge_returns :
    (∀ (s : IntervalLessonState) (f g : String) (now : Nat),
      s.currentChallenge = Option.none →
      submitIntervalAnswer s f g now = ((false, false), s)) ∧
    (∀ (s : ChordLessonState) (notes : List String) (now : Nat),
      s.currentChallenge = Option.none →
      submitChordAnswer s notes now = ((false, false), s)) := by
  constructor
  · intro s f g now h
    simp [submitIntervalAnswer, h]
  · intro s notes now h
    simp [submitChordAnswer, h]

/-- Witness for `submitAnswer_no_challenge_returns` at the empty states. -/
theorem submitAnswer_no_challenge_returns_witness :
    submitIntervalAnswer emptyIntervalLesson "C4" "E4" 0 =
      ((false, false), emptyIntervalLesson) ∧
    submitChordAnswer emptyChordLesson ["C4"] 3 =
      ((false, false), emptyChordLesson) :=
  ⟨submitAnswer_no_challenge_returns.1 emptyIntervalLesson "C4" "E4" 0 rfl,
   submitAnswer_no_challenge_returns.2 emptyChordLesson ["C4"] 3 rfl⟩

/-- Claim C10: `selectRandomChallenges` does not mutate the pool passed to
it — the sort runs on `[...pool]`, a copy — so after the call the caller's
array holds the same elements in the same order, and the returned selection
is the same as the pure function of the pool's contents. -/
theorem selectRandomChallenges_preserves_pool {α : Type}
    (shuffle : List α → List α) (ref : PoolRef α) (count : Nat) :
    (selectRandomChallengesRun shuffle ref count).2 = ref ∧
    (selectRandomChallengesRun shuffle ref count).1 =
      selectRandomChallenges shuffle ref.contents count :=
  ⟨rfl, rfl⟩

/-- Claim C2 (counterexample): cancelling `playInterval` during the first
note's hold (suspension point 0) yields one note-on but two note-offs —
the abort handler stops the target note even though it never started — so
the per-sequence on/off counts are not equal on every path. -/
theorem playback_on_off_count_cancel_cex :
    onCount (intervalPlaybackTrace "C4" "G4" (some 0)) = 1 ∧
    offCount (intervalPlaybackTrace "C4" "G4" (some 0)) = 2 ∧
    onCount (chordPlaybackTrace ["C4", "E4", "G4"] (some 0)) = 1 ∧
    offCount (chordPlaybackTrace ["C4", "E4", "G4"] (some 0)) = 3 := by
  decide

/-- The sequence of (interval, direction) identity keys that
`generateIntervalPool` emits, independent of the root. -/
def poolKeys : List (IntervalInfo × IntervalDirection) :=
  [ (⟨"unison", 0, "P1"⟩, .none),
    (⟨"minor 2nd", 1, "m2"⟩, .ascending), (⟨"minor 2nd", 1, "m2"⟩, .descending),
    (⟨"major 2nd", 2, "M2"⟩, .ascending), (⟨"major 2nd", 2, "M2"⟩, .descending),
    (⟨"minor 3rd", 3, "m3"⟩, .ascending), (⟨"minor 3rd", 3, "m3"⟩, .descending),
    (⟨"major 3rd", 4, "M3"⟩, .ascending), (⟨"major 3rd", 4, "M3"⟩, .descending),
    (⟨"perfect 4th", 5, "P4"⟩, .ascending), (⟨"perfect 4th", 5, "P4"⟩, .descending),
    (⟨"diminished 5th", 6, "d5"⟩, .ascending), (⟨"diminished 5th", 6, "d5"⟩, .descending),
    (⟨"perfect 5th", 7, "P5"⟩, .ascending), (⟨"perfect 5th", 7, "P5"⟩, .descending),
    (⟨"perfect octave", 12, "P8"⟩, .ascending), (⟨"perfect octave", 12, "P8"⟩, .descending) ]

/-- Claim C5: for every root, `generateIntervalPool` returns exactly 17
challenges whose (interval, direction) keys form one fixed sequence — so
the order is the same for every call — with exactly one `direction = none`
entry (the unison) and exactly one ascending and one descending entry for
each of the other 8 catalog intervals. -/
theorem generateIntervalPool_shape (r : Nat) :
    (generateIntervalPool r).map (fun c => (c.interval, c.direction)) = poolKeys ∧
    (generateIntervalPool r).length = 17 ∧
    ((generateIntervalPool r).countP
      fun c => c.direction == IntervalDirection.none) = 1 ∧
    (∀ i ∈ INTERVALS, i.name ≠ "unison" →
      ((generateIntervalPool r).countP
        fun c => c.interval.name == i.name &&
          c.direction == IntervalDirection.ascending) = 1 ∧
      ((generateIntervalPool r).countP
        fun c => c.interval.name == i.name &&
          c.direction == IntervalDirection.descending) = 1) := by
  refine ⟨rfl, rfl, rfl, ?_⟩
  intro i hmem hn
  fin_cases hmem
  · exact absurd rfl hn
  all_goals exact ⟨rfl, rfl⟩

/-- Witness for `generateIntervalPool_shape` at root 60 and the perfect
fifth. -/
theorem generateIntervalPool_shape_witness :
    (generateIntervalPool 60).length = 17 ∧
    ((generateIntervalPool 60).countP
      fun c => c.interval.name == "perfect 5th" &&
        c.direction == IntervalDirection.ascending) = 1 :=
  ⟨(generateIntervalPool_shape 60).2.1,
   ((generateIntervalPool_shape 60).2.2.2 ⟨"perfect 5th", 7, "P5"⟩
     (by decide) (by decide)).1⟩

/-- Claim C6: assuming only what JavaScript guarantees about
`[...pool].sort(randomComparator)` — that it permutes the pool — the
selection has exactly `min count pool.length` entries, keeps identity keys
duplicate-free whenever the pool's keys are, and when `count ≥ pool.length`
returns every element of the pool exactly once (a permutation of the whole
pool; no error, no padding). -/
theorem selectRandomChallenges_spec {α κ : Type} [DecidableEq κ]
    (shuffle : List α → List α) (pool : List α) (count : Nat) (key : α → κ)
    (hperm : List.Perm (shuffle pool) pool)
    (hnodup : (pool.map key).Nodup) :
    (selectRandomChallenges shuffle pool count).length = min count pool.length ∧
    ((selectRandomChallenges shuffle pool count).map key).Nodup ∧
    (pool.length ≤ count →
      List.Perm (selectRandomChallenges shuffle pool count) pool) := by
  unfold selectRandomChallenges
  refine ⟨?_, ?_, ?_⟩
  · rw [List.length_take, hperm.length_eq]
  · have h1 : ((shuffle pool).map key).Nodup :=
      ((hperm.map key).nodup_iff).mpr hnodup
    exact h1.sublist ((List.take_sublist _ _).map key)
  · intro h
    rw [List.take_of_length_le (by rw [hperm.length_eq]; exact h)]
    exact hperm

/-- Witness for `selectRandomChallenges_spec`: requesting 100 challenges
from a 4-element pool returns exactly those 4 elements. -/
theorem selectRandomChallenges_spec_witness :
    (selectRandomChallenges List.reverse [1, 2, 3, 4] 100).length =
      min 100 ([1, 2, 3, 4] : List Nat).length ∧
    ((selectRandomChallenges List.reverse [1, 2, 3, 4] 100).map id).Nodup ∧
    List.Perm (selectRandomChallenges List.reverse ([1, 2, 3, 4] : List Nat) 100)
      [1, 2, 3, 4] :=
  have h := selectRandomChallenges_spec List.reverse [1, 2, 3, 4] 100 id
    (by decide) (by decide)
  ⟨h.1, h.2.1, h.2.2 (by decide)⟩

/-- The positional comparison of two equal-length lists succeeds exactly
when the lists are equal. -/
theorem everyEq_iff {l1 l2 : List Int} (h : l1.length = l2.length) :
    everyEq l1 l2 = true ↔ l1 = l2 := by
  induction l1 generalizing l2 with
  | nil => cases l2 with
    | nil => simp [everyEq]
    | cons b bs => simp at h
  | cons a as ih =>
    cases l2 with
    | nil => simp at h
    | cons b bs =>
      simp only [everyEq, Bool.and_eq_true, beq_iff_eq, List.cons.injEq]
      rw [ih (by simpa using h)]

/-- The ascending sort permutes its input. -/
theorem sortAsc_perm (l : List Int) : List.Perm (sortAsc l) l :=
  List.perm_insertionSort _ l

/-- The ascending sort sorts its input. -/
theorem sortAsc_sorted (l : List Int) : (sortAsc l).Sorted (· ≤ ·) :=
  List.sorted_insertionSort _ l

/-- Lists equal as multisets have the same ascending sort. -/
theorem sortAsc_eq_of_perm {l1 l2 : List Int} (h : List.Perm l1 l2) :
    sortAsc l1 = sortAsc l2 :=
  List.eq_of_perm_of_sorted
    ((sortAsc_perm l1).trans (h.trans (sortAsc_perm l2).symm))
    (sortAsc_sorted l1) (sortAsc_sorted l2)

/-- Claim C7: `checkChordMatch` is false whenever the lengths differ, is
invariant under permutation of the played notes, accepts the pair of empty
lists, and for equal lengths accepts exactly the multiset-equal pairs. -/
theorem checkChordMatch_spec :
    (∀ p e : List Int, p.length ≠ e.length → checkChordMatch p e = false) ∧
    (∀ p p' e : List Int, List.Perm p p' →
      checkChordMatch p e = checkChordMatch p' e) ∧
    (checkChordMatch [] [] = true) ∧
    (∀ p e : List Int, p.length = e.length →
      (checkChordMatch p e = true ↔ List.Perm p e)) := by
  refine ⟨?_, ?_, rfl, ?_⟩
  · intro p e h
    simp [checkChordMatch, h]
  · intro p p' e hperm
    simp [checkChordMatch, hperm.length_eq, sortAsc_eq_of_perm hperm]
  · intro p e h
    simp only [checkChordMatch, h, ne_eq, not_true_eq_false, if_false,
      ite_false]
    have hlen : (sortAsc p).length = (sortAsc e).length := by
      rw [(sortAsc_perm p).length_eq, (sortAsc_perm e).length_eq, h]
    rw [everyEq_iff hlen]
    constructor
    · intro heq
      exact (sortAsc_perm p).symm.trans (heq ▸ sortAsc_perm e)
    · exact sortAsc_eq_of_perm

/-- Witness for `checkChordMatch_spec` on the spec's own examples: a wrong
note count, the C-major arpeggio played out of order, and C-minor against
C-major. -/
theorem checkChordMatch_spec_witness :
    checkChordMatch [60] [] = false ∧
    checkChordMatch [67, 60, 64] [60, 64, 67] =
      checkChordMatch [60, 64, 67] [60, 64, 67] ∧
    (checkChordMatch [60, 63, 67] [60, 64, 67] = true ↔
      List.Perm ([60, 63, 67] : List Int) [60, 64, 67]) :=
  ⟨checkChordMatch_spec.1 [60] [] (by decide),
   checkChordMatch_spec.2.1 [67, 60, 64] [60, 64, 67] [60, 64, 67] (by decide),
   checkChordMatch_spec.2.2.2 [60, 63, 67] [60, 64, 67] (by decide)⟩

/-- The abort handler's stop-all emits no note-ons. -/
theorem onCount_map_off : ∀ l : List String, onCount (l.map Ev.off) = 0
  | [] => rfl
  | x :: xs => by
    have := onCount_map_off xs
    simp only [List.map_cons, onCount, List.countP_cons] at this ⊢
    simp [this]

/-- The abort handler's stop-all emits one note-off per challenge note. -/
theorem offCount_map_off : ∀ l : List String, offCount (l.map Ev.off) = l.length
  | [] => rfl
  | x :: xs => by
    have := offCount_map_off xs
    simp only [List.map_cons, onCount, offCount, List.countP_cons] at this ⊢
    simp [this]

/-- On the completion path the chord loop pairs every note-on with its
note-off. -/
theorem chordGo_counts_none (allNotes : List String) :
    ∀ (rem : List String) (k : Nat),
      onCount (chordPlaybackGo allNotes Option.none rem k) =
      offCount (chordPlaybackGo allNotes Option.none rem k)
  | [], _ => rfl
  | [_], _ => rfl
  | n :: r :: rs, k => by
    have hunfold : chordPlaybackGo allNotes Option.none (n :: r :: rs) k =
        .on n :: .off n ::
          chordPlaybackGo allNotes Option.none (r :: rs) (k + 2) := rfl
    have ih := chordGo_counts_none allNotes (r :: rs) (k + 2)
    simp only [hunfold, onCount, offCount, List.countP_cons] at ih ⊢
    simp [ih]

/-- Per cancellation point, the interval sequencer's note-on count never
exceeds its note-off count. -/
theorem interval_counts_le (r t : String) :
    ∀ c, onCount (intervalPlaybackTrace r t c) ≤
      offCount (intervalPlaybackTrace r t c)
  | Option.none => le_of_eq rfl
  | some 0 => by
    have h1 : onCount (intervalPlaybackTrace r t (some 0)) = 1 := rfl
    have h2 : offCount (intervalPlaybackTrace r t (some 0)) = 2 := rfl
    omega
  | some 1 => by
    have h1 : onCount (intervalPlaybackTrace r t (some 1)) = 1 := rfl
    have h2 : offCount (intervalPlaybackTrace r t (some 1)) = 3 := rfl
    omega
  | some 2 => by
    have h1 : onCount (intervalPlaybackTrace r t (some 2)) = 2 := rfl
    have h2 : offCount (intervalPlaybackTrace r t (some 2)) = 3 := rfl
    omega
  | some (_ + 3) => le_of_eq rfl

/-- Every note the interval sequencer starts is stopped on every path. -/
theorem interval_on_imp_off (r t n : String) :
    ∀ c, Ev.on n ∈ intervalPlaybackTrace r t c →
      Ev.off n ∈ intervalPlaybackTrace r t c
  | Option.none => by
    intro h
    simp [intervalPlaybackTrace] at h ⊢
    tauto
  | some 0 => by
    intro h
    simp [intervalPlaybackTrace] at h ⊢
    tauto
  | some 1 => by
    intro h
    simp [intervalPlaybackTrace] at h ⊢
    tauto
  | some 2 => by
    intro h
    simp [intervalPlaybackTrace] at h ⊢
    tauto
  | some (_ + 3) => by
    intro h
    simp [intervalPlaybackTrace] at h ⊢
    tauto

/-- Every note the chord loop starts is stopped on every path, as long as
the loop only visits notes of the challenge. -/
theorem chordGo_on_imp_off (allNotes : List String) (c : Option Nat)
    (n : String) :
    ∀ (rem : List String) (k : Nat), (∀ x ∈ rem, x ∈ allNotes) →
      Ev.on n ∈ chordPlaybackGo allNotes c rem k →
      Ev.off n ∈ chordPlaybackGo allNotes c rem k
  | [], k => by
    intro _ h
    simp [chordPlaybackGo] at h
  | note :: rest, k => by
    intro hsub h
    have hmem : note ∈ allNotes := hsub note (by simp)
    by_cases hck : (c == some k) = true
    · have hunf : chordPlaybackGo allNotes c (note :: rest) k =
        .on note :: allNotes.map Ev.off := by
        simp [chordPlaybackGo, hck]
      rw [hunf] at h ⊢
      simp only [List.mem_cons, List.mem_map, Ev.on.injEq] at h
      rcases h with rfl | ⟨a, _, ha⟩
      · exact List.mem_cons_of_mem _ (List.mem_map_of_mem _ hmem)
      · exact absurd ha (by simp)
    · cases rest with
      | nil =>
        have hunf : chordPlaybackGo allNotes c [note] k =
            [.on note, .off note] := by
          simp [chordPlaybackGo, hck]
        rw [hunf] at h ⊢
        simp at h ⊢
        tauto
      | cons r rs =>
        by_cases hck2 : (c == some (k + 1)) = true
        · have hunf : chordPlaybackGo allNotes c (note :: r :: rs) k =
              .on note :: .off note :: allNotes.map Ev.off := by
            simp [chordPlaybackGo, hck, hck2]
          rw [hunf] at h ⊢
          simp only [List.mem_cons, List.mem_map, Ev.on.injEq] at h
          rcases h with rfl | h | ⟨a, _, ha⟩
          · exact List.mem_cons_of_mem _ (List.mem_cons_self _ _)
          · exact absurd h (by simp)
          · exact absurd ha (by simp)
        · have hunf : chordPlaybackGo allNotes c (note :: r :: rs) k =
              .on note :: .off note ::
                chordPlaybackGo allNotes c (r :: rs) (k + 2) := by
            simp [chordPlaybackGo, hck, hck2]
          rw [hunf] at h ⊢
          have hsub' : ∀ x ∈ r :: rs, x ∈ allNotes := by
            intro x hx
            exact hsub x (by simp [hx])
          simp only [List.mem_cons, Ev.on.injEq] at h
          rcases h with rfl | h | h
          · exact List.mem_cons_of_mem _ (List.mem_cons_self _ _)
          · exact absurd h (by simp)
          · have := chordGo_on_imp_off allNotes c n (r :: rs) (k + 2) hsub' h
            exact List.mem_cons_of_mem _ (List.mem_cons_of_mem _ this)

/-- Per cancellation point, the chord loop's note-on count never exceeds
its note-off count. -/
theorem chordGo_counts_le (allNotes : List String) (c : Option Nat) :
    ∀ (rem : List String) (k : Nat), (∀ x ∈ rem, x ∈ allNotes) →
      onCount (chordPlaybackGo allNotes c rem k) ≤
      offCount (chordPlaybackGo allNotes c rem k)
  | [], k => by intro _; exact Nat.le_refl 0
  | note :: rest, k => by
    intro hsub
    have hmem : note ∈ allNotes := hsub note (by simp)
    have hlen : 1 ≤ allNotes.length := List.length_pos_of_mem hmem
    have h1 := onCount_map_off allNotes
    have h2 := offCount_map_off allNotes
    by_cases hck : (c == some k) = true
    · have hunf : chordPlaybackGo allNotes c (note :: rest) k =
          .on note :: allNotes.map Ev.off := by
        simp [chordPlaybackGo, hck]
      rw [hunf]
      simp only [onCount, offCount] at h1 h2 ⊢
      simp [List.countP_cons, h1, h2]
      omega
    · cases rest with
      | nil =>
        have hunf : chordPlaybackGo allNotes c [note] k =
            [.on note, .off note] := by
          simp [chordPlaybackGo, hck]
        rw [hunf]
        exact le_of_eq rfl
      | cons r rs =>
        by_cases hck2 : (c == some (k + 1)) = true
        · have hunf : chordPlaybackGo allNotes c (note :: r :: rs) k =
              .on note :: .off note :: allNotes.map Ev.off := by
            simp [chordPlaybackGo, hck, hck2]
          rw [hunf]
          simp only [onCount, offCount] at h1 h2 ⊢
          simp [List.countP_cons, h1, h2]
        · have hunf : chordPlaybackGo allNotes c (note :: r :: rs) k =
              .on note :: .off note ::
                chordPlaybackGo allNotes c (r :: rs) (k + 2) := by
            simp [chordPlaybackGo, hck, hck2]
          rw [hunf]
          have hsub' : ∀ x ∈ r :: rs, x ∈ allNotes := by
            intro x hx
            exact hsub x (by simp [hx])
          have ih := chordGo_counts_le allNotes c (r :: rs) (k + 2) hsub'
          simp only [onCount, offCount] at ih ⊢
          simp [List.countP_cons]
          omega

/-- Claim C2 (amended): the per-sequence note-on and note-off counts are
equal when a sequence runs to completion; on cancellation at any
suspension point every note that received a note-on receives a note-off
(no stuck notes), and the note-off count is at least — not exactly — the
note-on count, because the abort handler stops every note of the
challenge, including notes it never started.  Holds for both
`playInterval` and `playChord`. -/
theorem playback_on_off_counts :
    (∀ root target : String,
      onCount (intervalPlaybackTrace root target Option.none) =
      offCount (intervalPlaybackTrace root target Option.none)) ∧
    (∀ notes : List String,
      onCount (chordPlaybackTrace notes Option.none) =
      offCount (chordPlaybackTrace notes Option.none)) ∧
    (∀ (root target n : String) (c : Option Nat),
      Ev.on n ∈ intervalPlaybackTrace root target c →
      Ev.off n ∈ intervalPlaybackTrace root target c) ∧
    (∀ (notes : List String) (n : String) (c : Option Nat),
      Ev.on n ∈ chordPlaybackTrace notes c →
      Ev.off n ∈ chordPlaybackTrace notes c) ∧
    (∀ (root target : String) (c : Option Nat),
      onCount (intervalPlaybackTrace root target c) ≤
      offCount (intervalPlaybackTrace root target c)) ∧
    (∀ (notes : List String) (c : Option Nat),
      onCount (chordPlaybackTrace notes c) ≤
      offCount (chordPlaybackTrace notes c)) :=
  ⟨fun _ _ => rfl,
   fun notes => chordGo_counts_none notes notes 0,
   fun r t n c => interval_on_imp_off r t n c,
   fun notes n c => chordGo_on_imp_off notes c n notes 0 (fun _ hx => hx),
   fun r t c => interval_counts_le r t c,
   fun notes c => chordGo_counts_le notes c notes 0 (fun _ hx => hx)⟩

/-- Witness for `playback_on_off_counts`: the membership and inequality
parts applied at a cancellation during the second note's hold. -/
theorem playback_on_off_counts_witness :
    Ev.off "C4" ∈ intervalPlaybackTrace "C4" "G4" (some 2) ∧
    Ev.off "E4" ∈ chordPlaybackTrace ["C4", "E4", "G4"] (some 2) ∧
    onCount (chordPlaybackTrace ["C4", "E4", "G4"] (some 2)) ≤
      offCount (chordPlaybackTrace ["C4", "E4", "G4"] (some 2)) :=
  ⟨playback_on_off_counts.2.2.1 "C4" "G4" "C4" (some 2) (by decide),
   playback_on_off_counts.2.2.2.1 ["C4", "E4", "G4"] "E4" (some 2) (by decide),
   playback_on_off_counts.2.2.2.2.2 ["C4", "E4", "G4"] (some 2)⟩

/-- Every catalog interval has a nonnegative semitone distance. -/
theorem INTERVALS_nonneg : ∀ i ∈ INTERVALS, 0 ≤ i.semitones := by decide

/-- Ascending round trip: with no clamping, `calculateInterval` recovers
the catalog entry and the ascending direction. -/
theorem roundtrip_asc (root : Int) (i : IntervalInfo)
    (hfind : INTERVALS.find? (fun j => j.semitones == i.semitones) = some i)
    (hpos : 0 < i.semitones) (h0 : 0 ≤ root) (h127 : root + i.semitones ≤ 127) :
    calculateInterval root (calculateTargetNote root i .ascending).2 =
      (some i, .ascending) := by
  have hcl : (calculateTargetNote root i .ascending).2 = root + i.semitones := by
    simp only [calculateTargetNote]
    omega
  rw [hcl]
  have hnab : ((root + i.semitones - root).natAbs : Int) = i.semitones := by omega
  have hgt : root + i.semitones > root := by omega
  simp only [calculateInterval, hnab, hgt, if_true, if_pos]
  simp [hfind]

/-- Descending round trip: with no clamping, `calculateInterval` recovers
the catalog entry and the descending direction. -/
theorem roundtrip_desc (root : Int) (i : IntervalInfo)
    (hfind : INTERVALS.find? (fun j => j.semitones == i.semitones) = some i)
    (hpos : 0 < i.semitones) (h0 : 0 ≤ root - i.semitones) (h127 : root ≤ 127) :
    calculateInterval root (calculateTargetNote root i .descending).2 =
      (some i, .descending) := by
  have hcl : (calculateTargetNote root i .descending).2 = root - i.semitones := by
    simp only [calculateTargetNote]
    omega
  rw [hcl]
  have hnab : ((root - i.semitones - root).natAbs : Int) = i.semitones := by omega
  have hngt : ¬ (root - i.semitones > root) := by omega
  have hlt : root - i.semitones < root := by omega
  simp only [calculateInterval, hnab]
  simp [hngt, hlt, hfind]

/-- Claim C4 (counterexample): the claim quantifies over every catalog
interval including unison; for unison with direction ascending
the target is unclamped (60 + 0), yet `calculateInterval` reports
direction `none`, not `ascending`. -/
theorem interval_roundtrip_unison_cex :
    (⟨"unison", 0, "P1"⟩ : IntervalInfo) ∈ INTERVALS ∧
    (12 : Int) ≤ 60 ∧ (60 : Int) ≤ 108 ∧
    (calculateTargetNote 60 ⟨"unison", 0, "P1"⟩ .ascending).2 =
      60 + (⟨"unison", 0, "P1"⟩ : IntervalInfo).semitones ∧
    (calculateInterval 60
      (calculateTargetNote 60 ⟨"unison", 0, "P1"⟩ .ascending).2).2 ≠
      IntervalDirection.ascending := by
  decide

/-- Claim C4 (amended): for every root in `[12,108]`, every catalog
interval other than unison, and either real direction, applying
`calculateInterval` to the unclamped `calculateTargetNote` result
reproduces the same interval entry and the same direction. -/
theorem interval_roundtrip (root : Int) (i : IntervalInfo)
    (hmem : i ∈ INTERVALS) (hnz : i.semitones ≠ 0)
    (hlo : 12 ≤ root) (hhi : root ≤ 108) :
    (root + i.semitones ≤ 127 →
      calculateInterval root (calculateTargetNote root i .ascending).2 =
        (some i, .ascending)) ∧
    (0 ≤ root - i.semitones →
      calculateInterval root (calculateTargetNote root i .descending).2 =
        (some i, .descending)) := by
  have hn := INTERVALS_nonneg i hmem
  have hpos : 0 < i.semitones := by omega
  have hfind : INTERVALS.find? (fun j => j.semitones == i.semitones) = some i := by
    fin_cases hmem <;> first | exact absurd rfl hnz | decide
  exact ⟨fun h127 => roundtrip_asc root i hfind hpos (by omega) h127,
         fun h0 => roundtrip_desc root i hfind hpos h0 (by omega)⟩

/-- Witness for `interval_roundtrip`: root C4 (60) and the perfect fifth
round-trip in both directions. -/
theorem interval_roundtrip_witness :
    calculateInterval 60
      (calculateTargetNote 60 ⟨"perfect 5th", 7, "P5"⟩ .ascending).2 =
      (some ⟨"perfect 5th", 7, "P5"⟩, .ascending) ∧
    calculateInterval 60
      (calculateTargetNote 60 ⟨"perfect 5th", 7, "P5"⟩ .descending).2 =
      (some ⟨"perfect 5th", 7, "P5"⟩, .descending) :=
  have h := interval_roundtrip 60 ⟨"perfect 5th", 7, "P5"⟩ (by decide)
    (by decide) (by decide) (by decide)
  ⟨h.1 (by decide), h.2 (by decide)⟩

/-- Reading back the index a sparse write targeted yields the written
value. -/
theorem getSparse_setSparse {α : Type} (l : List (Option α)) (i : Nat)
    (a : α) : getSparse (setSparse l i a) i = some a := by
  unfold setSparse getSparse
  split
  · rename_i h
    rw [List.getD_eq_getElem?_getD]
    rw [List.getElem?_set_eq_of_lt _ (by simpa using h)]
    rfl
  · rename_i h
    rw [List.getD_eq_getElem?_getD, List.append_assoc]
    rw [List.getElem?_append_right (by omega)]
    rw [List.getElem?_append_right (by simp)]
    simp

/-- Claim C1: with an active current challenge, `submitAnswer` increments
the attempt counter by exactly one, returns
`isLastAttempt = correct || (new attempt count ≥ 7)`, stores a finalized
result for the current position — with `succeeded = correct` and
`attemptsCount` the new count — when `isLastAttempt` holds, and leaves the
results untouched otherwise.  Holds for both the interval and the chord
lesson hook. -/
theorem submitAnswer_attempts_and_finalize :
    (∀ (s : IntervalLessonState) (ch : IntervalChallenge) (f g : String)
        (now : Nat), s.currentChallenge = some ch →
      (submitIntervalAnswer s f g now).2.attempts = s.attempts + 1 ∧
      (submitIntervalAnswer s f g now).1.2 =
        ((submitIntervalAnswer s f g now).1.1 ||
          decide (s.attempts + 1 ≥ MAX_ATTEMPTS)) ∧
      ((submitIntervalAnswer s f g now).1.2 = true →
        ∃ atts, getSparse (submitIntervalAnswer s f g now).2.results
            s.challengeIndex =
          some { challenge := ch, attempts := atts,
                 succeeded := (submitIntervalAnswer s f g now).1.1,
                 attemptsCount := s.attempts + 1 }) ∧
      ((submitIntervalAnswer s f g now).1.2 = false →
        (submitIntervalAnswer s f g now).2.results = s.results)) ∧
    (∀ (s : ChordLessonState) (ch : ChordChallenge) (notes : List String)
        (now : Nat), s.currentChallenge = some ch →
      (submitChordAnswer s notes now).2.attempts = s.attempts + 1 ∧
      (submitChordAnswer s notes now).1.2 =
        ((submitChordAnswer s notes now).1.1 ||
          decide (s.attempts + 1 ≥ MAX_ATTEMPTS)) ∧
      ((submitChordAnswer s notes now).1.2 = true →
        ∃ atts, getSparse (submitChordAnswer s notes now).2.results
            s.challengeIndex =
          some { challenge := ch, attempts := atts,
                 succeeded := (submitChordAnswer s notes now).1.1,
                 attemptsCount := s.attempts + 1 }) ∧
      ((submitChordAnswer s notes now).1.2 = false →
        (submitChordAnswer s notes now).2.results = s.results)) := by
  constructor
  · intro s ch f g now h
    simp only [submitIntervalAnswer, h]
    refine ⟨trivial, Bool.or_comm _ _, ?_, ?_⟩
    · intro hL
      rw [if_pos hL]
      exact ⟨_, getSparse_setSparse _ _ _⟩
    · intro hL
      rw [if_neg (by simp [hL])]
  · intro s ch notes now h
    simp only [submitChordAnswer, h]
    refine ⟨trivial, Bool.or_comm _ _, ?_, ?_⟩
    · intro hL
      rw [if_pos hL]
      exact ⟨_, getSparse_setSparse _ _ _⟩
    · intro hL
      rw [if_neg (by simp [hL])]

/-- A one-challenge interval session: perfect 5th ascending on C4. -/
def exIntervalChallenge : IntervalChallenge :=
  mkIntervalChallenge 60 "C4" ⟨"perfect 5th", 7, "P5"⟩ .ascending

/-- Session state with `exIntervalChallenge` active. -/
def exIntervalState : IntervalLessonState :=
  { challenges := [exIntervalChallenge], challengeIndex := 0, attempts := 0,
    results := [], isComplete := false }

/-- A one-challenge chord session: C major on C4. -/
def exChordChallenge : ChordChallenge :=
  { chord := ⟨"major", [0, 4, 7], "maj", "Major"⟩, rootNote := "C4",
    rootMidi := 60, notes := ["C4", "E4", "G4"], midiNotes := [60, 64, 67],
    displayName := "C Major" }

/-- Session state with `exChordChallenge` active. -/
def exChordState : ChordLessonState :=
  { challenges := [exChordChallenge], challengeIndex := 0, attempts := 0,
    results := [], isComplete := false }

/-- Witness for `submitAnswer_attempts_and_finalize`: a correct interval
answer (finalized at once) and a wrong chord answer (not finalized). -/
theorem submitAnswer_attempts_and_finalize_witness :
    (submitIntervalAnswer exIntervalState "C4" "G4" 0).2.attempts =
      exIntervalState.attempts + 1 ∧
    (∃ atts, getSparse (submitIntervalAnswer exIntervalState "C4" "G4" 0).2.results
        exIntervalState.challengeIndex =
      some { challenge := exIntervalChallenge, attempts := atts,
             succeeded := (submitIntervalAnswer exIntervalState "C4" "G4" 0).1.1,
             attemptsCount := exIntervalState.attempts + 1 }) ∧
    (submitChordAnswer exChordState ["C4"] 0).2.attempts =
      exChordState.attempts + 1 ∧
    (submitChordAnswer exChordState ["C4"] 0).2.results =
      exChordState.results :=
  have hI := submitAnswer_attempts_and_finalize.1 exIntervalState
    exIntervalChallenge "C4" "G4" 0 rfl
  have hC := submitAnswer_attempts_and_finalize.2 exChordState
    exChordChallenge ["C4"] 0 rfl
  ⟨hI.1, hI.2.2.1 (by decide), hC.1, hC.2.2.2 (by decide)⟩

end Cortina
